import Mathlib

set_option maxRecDepth 8000

/-!
Shallow embedding of the three maintenance scripts of this repository
(`scripts/fix-all-lint.py`, `scripts/fix-any-types.py`,
`scripts/fix-unused-imports.py`).

Each Python `re.sub` call is embedded as a left-to-right scanner over
`List Char` together with a matcher that, at a given position, either fails or
returns the replacement text plus the length of the consumed span.  The module
level `for` loops are embedded as batch runners over an abstract file system,
producing the chronological list of observable events (writes and printed
lines) plus the uncaught exception, if any, that aborted the run.
-/

/-- Python regex class `\s`, restricted to its ASCII members; every character
appearing in the texts under study is ASCII. -/
def isPySpace (c : Char) : Bool :=
  c == ' ' || c == '\t' || c == '\n' || c == '\r' || c == '\x0b' || c == '\x0c'

/-- One `re.sub` pass, with explicit fuel for structural recursion: at each
position the matcher either fails (scanning advances one character) or fires,
returning the replacement text and the number `n ≥ 1` of characters consumed;
scanning resumes after the consumed span, so replacement text is never
rescanned, exactly as in Python.  Every step consumes at least one character
and one unit of fuel, so fuel equal to the length of the text is always
sufficient; with exhausted fuel the scanner stops. -/
def scanSubF (f : List Char → Option (List Char × Nat)) : Nat → List Char → List Char
  | _, [] => []
  | 0, _ => []
  | fuel + 1, c :: rest =>
    match f (c :: rest) with
    | some (repl, n) => repl ++ scanSubF f fuel ((c :: rest).drop n)
    | none => c :: scanSubF f fuel rest

/-- `re.sub`: one full left-to-right pass over the text. -/
def scanSub (f : List Char → Option (List Char × Nat)) (l : List Char) : List Char :=
  scanSubF f l.length l

/-- `re.sub` with `count=1`: only the leftmost match is replaced. -/
def scanSubOnce (f : List Char → Option (List Char × Nat)) : List Char → List Char
  | [] => []
  | c :: rest =>
    match f (c :: rest) with
    | some (repl, n) => repl ++ (c :: rest).drop n
    | none => c :: scanSubOnce f rest

/-- `re.search`: does the matcher fire at some position of the text. -/
def existsMatch (f : List Char → Option (List Char × Nat)) : List Char → Bool
  | [] => false
  | c :: rest => (f (c :: rest)).isSome || existsMatch f rest

/-- Python substring containment, the `in` operator on `str`. -/
def hasSubL (pat : List Char) : List Char → Bool
  | [] => pat.isEmpty
  | c :: rest => pat.isPrefixOf (c :: rest) || hasSubL pat rest

/-! ### fix-all-lint.py : remove_unused_imports -/

def importTypeHead : List Char := "import type \x7b ".toList

def typeNames : List (List Char) :=
  ["SuccessResponse".toList, "ErrorResponse".toList, "PingResponse".toList]

/-- Group 1 of pattern 1 under greedy matching.  A successful match decomposes
the non-brace span `core` (the text strictly between the literal head and the
single space preceding the closing brace) as `g1 ++ ", " ++ N ++ ... ++ ", " ++ N`;
since `([^}]+)` is greedy, `g1` absorbs everything except the shortest such
suffix, i.e. exactly one trailing `", " ++ N` with `N` one of the three type
names.  Returns that maximal `g1` (which must be nonempty). -/
def greedyGroupOne (core : List Char) : Option (List Char) :=
  typeNames.findSome? (fun nm =>
    if ((',' :: ' ' :: nm).isSuffixOf core) && decide (nm.length + 2 < core.length) then
      some (core.take (core.length - (nm.length + 2)))
    else none)

/-- Matcher for pattern 1 of fix-all-lint.py,
`import type \x7b ([^\x7d]+), (S|E|P)(, (S|E|P))*(, (S|E|P))* \x7d` with
replacement `import type \x7b \1 \x7d`, where S, E, P are the three response
type names.  The match necessarily ends at the first closing brace after the
literal head, preceded by exactly one space. -/
def tryRemoveImports (l : List Char) : Option (List Char × Nat) :=
  if importTypeHead.isPrefixOf l then
    let r := l.drop importTypeHead.length
    let pre := r.takeWhile (fun c => c != '\x7d')
    if decide (pre.length < r.length) && (pre.getLast? == some ' ') then
      match greedyGroupOne pre.dropLast with
      | some g1 =>
        some (importTypeHead ++ g1 ++ [' ', '\x7d'], importTypeHead.length + pre.length + 1)
      | none => none
    else none
  else none

/-- Pattern 2 of fix-all-lint.py: `,\s*,` replaced by `,`. -/
def tryDoubleComma : List Char → Option (List Char × Nat)
  | ',' :: rest =>
    let ws := rest.takeWhile isPySpace
    if (rest.drop ws.length).head? == some ',' then some ([','], ws.length + 2) else none
  | _ => none

/-- Pattern 3 of fix-all-lint.py: `,\s*\x7d` replaced by ` \x7d`. -/
def tryTrailingComma : List Char → Option (List Char × Nat)
  | ',' :: rest =>
    let ws := rest.takeWhile isPySpace
    if (rest.drop ws.length).head? == some '\x7d' then some ([' ', '\x7d'], ws.length + 2)
    else none
  | _ => none

/-- The text transformation performed by `remove_unused_imports` of
fix-all-lint.py: the three `re.sub` calls in source order, each applied to the
output of the previous one. -/
def removeUnusedImportsL (l : List Char) : List Char :=
  scanSub tryTrailingComma (scanSub tryDoubleComma (scanSub tryRemoveImports l))

def remove_unused_imports_text (s : String) : String :=
  (removeUnusedImportsL s.toList).asString

/-! ### fix-any-types.py : fix_any_types -/

def nmSuccessL : List Char := "SuccessResponse".toList

def nmErrorL : List Char := "ErrorResponse".toList

/-- Regex class `['\x22]` of the import patterns: a single or double quote. -/
def isQuote (c : Char) : Bool := c == '\x27' || c == '\x22'

def importTypeOpen : List Char := "import type \x7b".toList

def braceFrom : List Char := "\x7d from ".toList

def typesPath : List Char := "../../src/types/index.js".toList

/-- Effect on the matched text of the replacement lambda of fix-any-types.py:
inside the match, `\x7d from` is replaced by
`, SuccessResponse, ErrorResponse, PingResponse \x7d from`; this constant is
that inserted text together with the space that followed the original
`\x7d from`. -/
def addedMid : List Char := ", SuccessResponse, ErrorResponse, PingResponse \x7d from ".toList

/-- Matcher for the existing-import pattern of fix-any-types.py,
`import type \x7b[^\x7d]+\x7d from ['\x22]\.\./\.\./src/types/index\.js['\x22];`.
The brace closing the matched `[^\x7d]+` span is the first closing brace after
the literal head. -/
def tryImportTypePath (l : List Char) : Option (List Char × Nat) :=
  if importTypeOpen.isPrefixOf l then
    let r := l.drop importTypeOpen.length
    let inner := r.takeWhile (fun c => c != '\x7d')
    if inner.isEmpty then none
    else
      let r2 := r.drop inner.length
      if braceFrom.isPrefixOf r2 then
        let r3 := r2.drop braceFrom.length
        match r3 with
        | q1 :: r4 =>
          if isQuote q1 && typesPath.isPrefixOf r4 then
            match r4.drop typesPath.length with
            | q2 :: r6 =>
              if isQuote q2 && (r6.head? == some ';') then
                some (importTypeOpen ++ inner ++ addedMid ++ q1 :: typesPath ++ q2 :: [';'],
                      importTypeOpen.length + inner.length + braceFrom.length +
                        typesPath.length + 3)
              else none
            | [] => none
          else none
        | [] => none
      else none
  else none

def importSp : List Char := "import ".toList

def fromSp : List Char := " from ".toList

/-- The line inserted by the fallback branch of the import step. -/
def newImportLine : List Char :=
  ("import type \x7b SuccessResponse, ErrorResponse, PingResponse \x7d from " ++
    "\x27../../src/types/index.js\x27;").toList

/-- One candidate split of a line for `import .+ from ['\x22].+['\x22];`: the
literal ` from ` sits at offset `i` of the text after `import `, the first
`.+` (offsets below `i`) is nonempty, the character after ` from ` is a quote,
and at least one character remains for the second `.+` before the closing
quote and semicolon that must end the line. -/
def validFromSplit (line : List Char) (i : Nat) : Bool :=
  decide (1 ≤ i) && decide (i + 10 ≤ line.length) && fromSp.isPrefixOf (line.drop i)
    && (match (line.drop (i + 6)).head? with
        | some q => isQuote q
        | none => false)

/-- The closing `['\x22];` of the line pattern: since `.` never matches a
newline and the pattern ends `;\n`, the quote and semicolon must be the last
two characters of the line. -/
def lineEndsQuoteSemi (line : List Char) : Bool :=
  decide (2 ≤ line.length) && (line.getLast? == some ';')
    && (match (line.drop (line.length - 2)).head? with
        | some q => isQuote q
        | none => false)

/-- Matcher for the fallback import pattern `(import .+ from ['\x22].+['\x22];)\n`
of fix-any-types.py.  A match starting at a position consumes the whole rest of
the current line plus its newline (the `;` must immediately precede the
newline); the replacement keeps the matched group and appends the new import
line, so only matchability matters, not the chosen split. -/
def tryAddImportLine (l : List Char) : Option (List Char × Nat) :=
  if importSp.isPrefixOf l then
    let r := l.drop importSp.length
    let line := r.takeWhile (fun c => c != '\n')
    if decide (line.length < r.length) && lineEndsQuoteSemi line
        && (List.range line.length).any (validFromSplit line) then
      some (importSp ++ line ++ '\n' :: newImportLine ++ ['\n'],
            importSp.length + line.length + 1)
    else none
  else none

/-- The import-insertion step of fix_any_types: performed only when neither
`SuccessResponse` nor `ErrorResponse` occurs in the content; `re.search` on the
existing-import pattern selects between the two branches, the fallback branch
using `count=1`. -/
def insertImport (t : List Char) : List Char :=
  if hasSubL nmSuccessL t || hasSubL nmErrorL t then t
  else if existsMatch tryImportTypePath t then scanSub tryImportTypePath t
  else scanSubOnce tryAddImportLine t

def resJson : List Char := "(await res.json())".toList

def resJsonAsAny : List Char := "(await res.json()) as any;".toList

def expectToBe : List Char := "expect(res.status).toBe(".toList

def errCodes : List (List Char) := ["400".toList, "404".toList, "500".toList]

def succCodes : List (List Char) := ["200".toList, "201".toList]

/-- Matcher shared by the error-response and success-response rules of
fix-any-types.py,
`(\(await res\.json\(\)\)) as any;(\s+expect\(res\.status\)\.toBe\((codes)\))`
with replacement `\1 as tyName;\2`.  The `\s+` is greedy but deterministic
since no whitespace character can start `expect`. -/
def tryStatusAny (codes : List (List Char)) (tyName : List Char) (l : List Char) :
    Option (List Char × Nat) :=
  if resJsonAsAny.isPrefixOf l then
    let r := l.drop resJsonAsAny.length
    let ws := r.takeWhile isPySpace
    if ws.isEmpty then none
    else
      let r2 := r.drop ws.length
      if expectToBe.isPrefixOf r2 then
        let r3 := r2.drop expectToBe.length
        match codes.findSome? (fun cd => if (cd ++ [')']).isPrefixOf r3 then some cd else none)
        with
        | some cd =>
          some (resJson ++ " as ".toList ++ tyName ++ ';' :: ws ++ expectToBe ++ cd ++ [')'],
                resJsonAsAny.length + ws.length + expectToBe.length + cd.length + 1)
        | none => none
      else none
  else none

/-- Rule 1 of the as-any rules: error responses (status 400, 404, 500). -/
def tryErrAny (l : List Char) : Option (List Char × Nat) :=
  tryStatusAny errCodes nmErrorL l

/-- Rule 2 of the as-any rules: success responses (status 200, 201). -/
def trySuccAny (l : List Char) : Option (List Char × Nat) :=
  tryStatusAny succCodes nmSuccessL l

def toBe200Semi : List Char := "expect(res.status).toBe(200);".toList

def pingOk : List Char := "status: \x27ok\x27".toList

/-- Rule 3 of the as-any rules, for /ping responses:
`(\(await res\.json\(\)\)) as any;(\s+expect\(res\.status\)\.toBe\(200\);[\s\S]\x7b0,50\x7dstatus: \x27ok\x27)`.
`[\s\S]` matches any character and its bounded repetition is greedy, so the gap
is the largest `k ≤ 50` with `status: \x27ok\x27` right after it. -/
def tryPingAny (l : List Char) : Option (List Char × Nat) :=
  if resJsonAsAny.isPrefixOf l then
    let r := l.drop resJsonAsAny.length
    let ws := r.takeWhile isPySpace
    if ws.isEmpty then none
    else
      let r2 := r.drop ws.length
      if toBe200Semi.isPrefixOf r2 then
        let r3 := r2.drop toBe200Semi.length
        match (List.range 51).reverse.find? (fun k => pingOk.isPrefixOf (r3.drop k)) with
        | some k =>
          some (resJson ++ " as PingResponse;".toList ++ ws ++ toBe200Semi ++ r3.take k ++ pingOk,
                resJsonAsAny.length + ws.length + toBe200Semi.length + k + pingOk.length)
        | none => none
      else none
  else none

def patAnyCatch : List Char := ") as any;".toList

def repAnyCatch : List Char := ") as SuccessResponse | ErrorResponse;".toList

/-- Rule 4 of the as-any rules, the catch-all: `\) as any;` replaced by
`) as SuccessResponse | ErrorResponse;`. -/
def tryCatchAll (l : List Char) : Option (List Char × Nat) :=
  if patAnyCatch.isPrefixOf l then some (repAnyCatch, patAnyCatch.length) else none

/-- The text transformation performed by `fix_any_types` of fix-any-types.py:
the import-insertion step, then the four as-any `re.sub` rules in source
order, each applied to the output of the previous step. -/
def fixAnyTypesL (t : List Char) : List Char :=
  scanSub tryCatchAll (scanSub tryPingAny (scanSub trySuccAny (scanSub tryErrAny
    (insertImport t))))

def fix_any_types_text (s : String) : String :=
  (fixAnyTypesL s.toList).asString

/-! ### fix-unused-imports.py -/

def stripPat : List Char := ", SuccessResponse, ErrorResponse, PingResponse".toList

/-- The single rule of fix-unused-imports.py: every occurrence of the literal
`, SuccessResponse, ErrorResponse, PingResponse` is deleted. -/
def tryStrip (l : List Char) : Option (List Char × Nat) :=
  if stripPat.isPrefixOf l then some ([], stripPat.length) else none

def fixUnusedImportsL (t : List Char) : List Char := scanSub tryStrip t

def fix_unused_imports_text (s : String) : String :=
  (fixUnusedImportsL s.toList).asString

/-! ### The module-level batch loops

The three scripts iterate over a list of paths with no exception handling of
any kind.  We model the file system as a map from paths to a `FileState` and a
run as the chronological list of its observable events together with the
uncaught exception, if one aborted the loop; after an abort no further events
occur and the final `Done!` line is never printed. -/

/-- State of a path on the abstract file system. -/
inductive FileState
  | absent
  | readable (content : String)
  | unreadable (err : String)
deriving DecidableEq

/-- Observable actions of a run, in chronological order. -/
inductive Event
  | wrote (path : String) (content : String)
  | printed (line : String)
deriving DecidableEq

/-- The module loop of fix-all-lint.py: for each listed path, if it exists it
is read, transformed and written back unconditionally (the source never
compares the new text with the old one before writing); missing paths are
skipped silently, and a read or write error propagates and aborts the loop. -/
def fixAllLintRun (fs : String → FileState) : List String → List Event × Option String
  | [] => ([Event.printed "Done!"], none)
  | p :: rest =>
    match fs p with
    | FileState.absent => fixAllLintRun fs rest
    | FileState.unreadable e => ([], some e)
    | FileState.readable c =>
      let out := fixAllLintRun fs rest
      (Event.wrote p (remove_unused_imports_text c) :: Event.printed ("Fixed: " ++ p) :: out.1,
       out.2)

/-- The module loop of fix-any-types.py over the discovered test files: each
file is opened, transformed and written back unconditionally; there is no
existence check (a vanished path raises) and no exception handling, so any
error aborts the loop. -/
def fixAnyTypesRun (fs : String → FileState) : List String → List Event × Option String
  | [] => ([Event.printed "Done!"], none)
  | p :: rest =>
    match fs p with
    | FileState.absent => ([], some ("FileNotFoundError: " ++ p))
    | FileState.unreadable e => ([], some e)
    | FileState.readable c =>
      let out := fixAnyTypesRun fs rest
      (Event.wrote p (fix_any_types_text c) :: Event.printed ("Fixed: " ++ p) :: out.1,
       out.2)

/-- The module loop of fix-unused-imports.py: a missing path is reported with a
`Skipping` line and the loop continues; an existing path is read, transformed
and written back unconditionally; a read or write error aborts the loop. -/
def fixUnusedImportsRun (fs : String → FileState) : List String → List Event × Option String
  | [] => ([Event.printed "Done!"], none)
  | p :: rest =>
    match fs p with
    | FileState.absent =>
      let out := fixUnusedImportsRun fs rest
      (Event.printed ("Skipping " ++ p ++ " (not found)") :: out.1, out.2)
    | FileState.unreadable e => ([], some e)
    | FileState.readable c =>
      let out := fixUnusedImportsRun fs rest
      (Event.wrote p (fix_unused_imports_text c) :: Event.printed ("Fixed: " ++ p) :: out.1,
       out.2)

/-! ## Abstract rule application -/

/-- An ordered rule list applied as a fold: each rule maps the output of the
previous one. -/
def applyRules (rules : List (List Char → List Char)) (t : List Char) : List Char :=
  rules.foldl (fun acc r => r acc) t

/-- A file system holding exactly one readable file. -/
def singleFS (p c : String) : String → FileState :=
  fun q => if q = p then FileState.readable c else FileState.absent

/-- A file system where the first batch target is unreadable and everything
else is readable. -/
def c2FS : String → FileState :=
  fun q => if q = "a.test.ts" then FileState.unreadable "PermissionError"
    else FileState.readable "x"

/-- A file system where only `b.ts` exists. -/
def c4FS : String → FileState :=
  fun q => if q = "b.ts" then FileState.readable "x" else FileState.absent

/-! ## Claims -/

/-- C5: applying the unused-import-removal rules of fix-all-lint.py to the text
`import type \x7b Foo, SuccessResponse \x7d from \x27x\x27;` yields exactly
`import type \x7b Foo \x7d from \x27x\x27;`. -/
theorem c5_concrete_import_removal :
    remove_unused_imports_text "import type \x7b Foo, SuccessResponse \x7d from \x27x\x27;"
      = "import type \x7b Foo \x7d from \x27x\x27;" := by decide

/-- C6: the any-type transformation on the text
`const r = (await res.json()) as any;` newline `expect(res.status).toBe(200);`
replaces the `as any` cast with `as SuccessResponse` and leaves the expect
line otherwise untouched. -/
theorem c6_concrete_as_any_replacement :
    fix_any_types_text "const r = (await res.json()) as any;\nexpect(res.status).toBe(200);"
      = "const r = (await res.json()) as SuccessResponse;\nexpect(res.status).toBe(200);" := by
  decide

/-- C3: the rule list of fix-all-lint.py is not idempotent.  On the text `,,,`
one application yields `,,`: the non-overlapping left-to-right scan of the
double-comma rule halves a run of commas instead of collapsing it, so the
output still contains a double comma, contradicting the stated purpose of that
rule; a second application yields `,`, different from the first. -/
theorem c3_not_idempotent_at_commas :
    remove_unused_imports_text ",,," = ",," ∧
      remove_unused_imports_text (remove_unused_imports_text ",,,") = "," := by decide

/-- C7: both per-file transformations equal the sequential composition, in the
caller-specified order, of their individual substitution rules: each rule
operates on the output of the previous rule, never on the original text. -/
theorem c7_rules_compose_in_order (t : List Char) :
    removeUnusedImportsL t
        = applyRules [scanSub tryRemoveImports, scanSub tryDoubleComma,
            scanSub tryTrailingComma] t ∧
      fixAnyTypesL t
        = applyRules [insertImport, scanSub tryErrAny, scanSub trySuccAny,
            scanSub tryPingAny, scanSub tryCatchAll] t :=
  ⟨rfl, rfl⟩

/-- C1 counterexample: on the content `hello` the rules are the identity, yet
the processing step of fix-all-lint.py performs a write of the file anyway:
the scripts write unconditionally and no Unchanged outcome exists in them. -/
theorem c1_counterexample :
    remove_unused_imports_text "hello" = "hello" ∧
      (fixAllLintRun (singleFS "a.ts" "hello") ["a.ts"]).1
        = [Event.wrote "a.ts" "hello", Event.printed "Fixed: a.ts",
            Event.printed "Done!"] := by decide

/-- C1 amended: when the rules leave the text unchanged the scripts still
perform a write: in each of the three scripts, an existing target whose
content is a fixpoint of the rules of that script is written back with the
identical bytes and reported as `Fixed`, in any batch context and on any file
system; the on-disk bytes end up unchanged, but the write and the report
happen unconditionally rather than being skipped. -/
theorem c1_always_writes (fs : String → FileState) (p c : String) (ts : List String)
    (hfs : fs p = FileState.readable c) :
    (remove_unused_imports_text c = c →
      fixAllLintRun fs (p :: ts)
        = (Event.wrote p c :: Event.printed ("Fixed: " ++ p) :: (fixAllLintRun fs ts).1,
            (fixAllLintRun fs ts).2)) ∧
      (fix_any_types_text c = c →
        fixAnyTypesRun fs (p :: ts)
          = (Event.wrote p c :: Event.printed ("Fixed: " ++ p) :: (fixAnyTypesRun fs ts).1,
              (fixAnyTypesRun fs ts).2)) ∧
      (fix_unused_imports_text c = c →
        fixUnusedImportsRun fs (p :: ts)
          = (Event.wrote p c :: Event.printed ("Fixed: " ++ p) ::
              (fixUnusedImportsRun fs ts).1,
              (fixUnusedImportsRun fs ts).2)) := by
  refine ⟨fun h => ?_, fun h => ?_, fun h => ?_⟩ <;>
    simp [fixAllLintRun, fixAnyTypesRun, fixUnusedImportsRun, hfs, h]

/-- Witness for the amended C1 at a concrete input: the content `hello` is a
fixpoint of all three transformations, yet each script writes it back and
reports `Fixed`. -/
theorem c1_always_writes_witness :
    fixAllLintRun (singleFS "a.ts" "hello") ["a.ts"]
        = (Event.wrote "a.ts" "hello" :: Event.printed ("Fixed: " ++ "a.ts") ::
            (fixAllLintRun (singleFS "a.ts" "hello") []).1,
            (fixAllLintRun (singleFS "a.ts" "hello") []).2) ∧
      fixAnyTypesRun (singleFS "a.ts" "hello") ["a.ts"]
        = (Event.wrote "a.ts" "hello" :: Event.printed ("Fixed: " ++ "a.ts") ::
            (fixAnyTypesRun (singleFS "a.ts" "hello") []).1,
            (fixAnyTypesRun (singleFS "a.ts" "hello") []).2) ∧
      fixUnusedImportsRun (singleFS "a.ts" "hello") ["a.ts"]
        = (Event.wrote "a.ts" "hello" :: Event.printed ("Fixed: " ++ "a.ts") ::
            (fixUnusedImportsRun (singleFS "a.ts" "hello") []).1,
            (fixUnusedImportsRun (singleFS "a.ts" "hello") []).2) := by
  have h := c1_always_writes (singleFS "a.ts" "hello") "a.ts" "hello" [] (by decide)
  exact ⟨h.1 (by decide), h.2.1 (by decide), h.2.2 (by decide)⟩

/-- C2 counterexample: with the first target unreadable and the second target
readable, the run of fix-any-types.py performs no event at all and surfaces
the uncaught error: the failure is not converted into a per-target Failed
result, and the second target is never processed. -/
theorem c2_counterexample :
    fixAnyTypesRun c2FS ["a.test.ts", "b.test.ts"] = ([], some "PermissionError") := by
  decide

/-- C2 amended: none of the three scripts catches per-target read errors; the
first failing target aborts the whole batch with the uncaught exception, no
event is performed, and the subsequent targets are not processed. -/
theorem c2_abort_on_error (fs : String → FileState) (t e : String) (ts : List String)
    (h : fs t = FileState.unreadable e) :
    fixAnyTypesRun fs (t :: ts) = ([], some e) ∧
      fixAllLintRun fs (t :: ts) = ([], some e) ∧
      fixUnusedImportsRun fs (t :: ts) = ([], some e) := by
  refine ⟨?_, ?_, ?_⟩ <;> simp [fixAnyTypesRun, fixAllLintRun, fixUnusedImportsRun, h]

/-- Witness for the amended C2 at a concrete input. -/
theorem c2_abort_on_error_witness :
    fixAnyTypesRun c2FS ["a.test.ts", "b.test.ts"] = ([], some "PermissionError") ∧
      fixAllLintRun c2FS ["a.test.ts", "b.test.ts"] = ([], some "PermissionError") ∧
      fixUnusedImportsRun c2FS ["a.test.ts", "b.test.ts"] = ([], some "PermissionError") :=
  c2_abort_on_error c2FS "a.test.ts" "PermissionError" ["b.test.ts"] (by decide)

/-- C4 counterexample: fix-all-lint.py does not report a missing explicit
target: with `m.ts` absent, the run emits no line mentioning it, in particular
no Skipped report, although processing does continue with the remaining
target. -/
theorem c4_counterexample :
    (fixAllLintRun c4FS ["m.ts", "b.ts"]).1
        = [Event.wrote "b.ts" "x", Event.printed "Fixed: b.ts", Event.printed "Done!"] ∧
      Event.printed "Skipping m.ts (not found)" ∉ (fixAllLintRun c4FS ["m.ts", "b.ts"]).1 := by
  decide

/-- C4 amended: a missing explicit target never aborts the run and the
remaining targets are still processed; fix-unused-imports.py reports it with a
`Skipping (not found)` line, while fix-all-lint.py skips it silently, emitting
no report for it. -/
theorem c4_skip_behavior (fs : String → FileState) (p : String) (ts : List String)
    (h : fs p = FileState.absent) :
    fixUnusedImportsRun fs (p :: ts)
        = (Event.printed ("Skipping " ++ p ++ " (not found)") ::
            (fixUnusedImportsRun fs ts).1, (fixUnusedImportsRun fs ts).2) ∧
      fixAllLintRun fs (p :: ts) = fixAllLintRun fs ts := by
  constructor <;> simp [fixUnusedImportsRun, fixAllLintRun, h]

/-- Witness for the amended C4 at a concrete input. -/
theorem c4_skip_behavior_witness :
    fixUnusedImportsRun c4FS ["m.ts", "b.ts"]
        = (Event.printed ("Skipping " ++ "m.ts" ++ " (not found)") ::
            (fixUnusedImportsRun c4FS ["b.ts"]).1, (fixUnusedImportsRun c4FS ["b.ts"]).2) ∧
      fixAllLintRun c4FS ["m.ts", "b.ts"] = fixAllLintRun c4FS ["b.ts"] :=
  c4_skip_behavior c4FS "m.ts" ["b.ts"] (by decide)

/-- Helper for C8: every write event of a fix-all-lint run writes the
transformation of the written path's own file-system content. -/
theorem wroteInvAllLint (fs : String → FileState) (ts : List String) (p x : String)
    (h : Event.wrote p x ∈ (fixAllLintRun fs ts).1) :
    ∃ c, fs p = FileState.readable c ∧ x = remove_unused_imports_text c := by
  induction ts with
  | nil => simp [fixAllLintRun] at h
  | cons t ts ih =>
    cases hft : fs t with
    | absent =>
      simp only [fixAllLintRun, hft] at h
      exact ih h
    | unreadable e => simp [fixAllLintRun, hft] at h
    | readable c =>
      simp [fixAllLintRun, hft] at h
      rcases h with ⟨hp, hx⟩ | h
      · exact ⟨c, hp ▸ hft, hx⟩
      · exact ih h

/-- Helper for C8: the same for fix-any-types runs. -/
theorem wroteInvAnyTypes (fs : String → FileState) (ts : List String) (p x : String)
    (h : Event.wrote p x ∈ (fixAnyTypesRun fs ts).1) :
    ∃ c, fs p = FileState.readable c ∧ x = fix_any_types_text c := by
  induction ts with
  | nil => simp [fixAnyTypesRun] at h
  | cons t ts ih =>
    cases hft : fs t with
    | absent => simp [fixAnyTypesRun, hft] at h
    | unreadable e => simp [fixAnyTypesRun, hft] at h
    | readable c =>
      simp [fixAnyTypesRun, hft] at h
      rcases h with ⟨hp, hx⟩ | h
      · exact ⟨c, hp ▸ hft, hx⟩
      · exact ih h

/-- Helper for C8: the same for fix-unused-imports runs. -/
theorem wroteInvUnused (fs : String → FileState) (ts : List String) (p x : String)
    (h : Event.wrote p x ∈ (fixUnusedImportsRun fs ts).1) :
    ∃ c, fs p = FileState.readable c ∧ x = fix_unused_imports_text c := by
  induction ts with
  | nil => simp [fixUnusedImportsRun] at h
  | cons t ts ih =>
    cases hft : fs t with
    | absent =>
      simp only [fixUnusedImportsRun, hft] at h
      rcases List.mem_cons.mp h with h | h
      · exact absurd h (by simp)
      · exact ih h
    | unreadable e => simp [fixUnusedImportsRun, hft] at h
    | readable c =>
      simp [fixUnusedImportsRun, hft] at h
      rcases h with ⟨hp, hx⟩ | h
      · exact ⟨c, hp ▸ hft, hx⟩
      · exact ih h

/-- C8: the content written for a target is byte-identical across any two runs
in which that target holds the same old text, for each of the three scripts:
the per-file transformation is a deterministic function of the input text
alone, independent of the surrounding batch, of the rest of the file system
and of anything else. -/
theorem c8_deterministic_outputs :
    (∀ (fs1 fs2 : String → FileState) (ts1 ts2 : List String) (p c x1 x2 : String),
        fs1 p = FileState.readable c → fs2 p = FileState.readable c →
        Event.wrote p x1 ∈ (fixAllLintRun fs1 ts1).1 →
        Event.wrote p x2 ∈ (fixAllLintRun fs2 ts2).1 → x1 = x2) ∧
      (∀ (fs1 fs2 : String → FileState) (ts1 ts2 : List String) (p c x1 x2 : String),
        fs1 p = FileState.readable c → fs2 p = FileState.readable c →
        Event.wrote p x1 ∈ (fixAnyTypesRun fs1 ts1).1 →
        Event.wrote p x2 ∈ (fixAnyTypesRun fs2 ts2).1 → x1 = x2) ∧
      (∀ (fs1 fs2 : String → FileState) (ts1 ts2 : List String) (p c x1 x2 : String),
        fs1 p = FileState.readable c → fs2 p = FileState.readable c →
        Event.wrote p x1 ∈ (fixUnusedImportsRun fs1 ts1).1 →
        Event.wrote p x2 ∈ (fixUnusedImportsRun fs2 ts2).1 → x1 = x2) := by
  refine ⟨?_, ?_, ?_⟩
  · intro fs1 fs2 ts1 ts2 p c x1 x2 h1 h2 m1 m2
    obtain ⟨c1, hc1, hx1⟩ := wroteInvAllLint fs1 ts1 p x1 m1
    obtain ⟨c2, hc2, hx2⟩ := wroteInvAllLint fs2 ts2 p x2 m2
    have e1 : c1 = c := by rw [h1] at hc1; exact (FileState.readable.injEq ..).mp hc1.symm
    have e2 : c2 = c := by rw [h2] at hc2; exact (FileState.readable.injEq ..).mp hc2.symm
    rw [hx1, hx2, e1, e2]
  · intro fs1 fs2 ts1 ts2 p c x1 x2 h1 h2 m1 m2
    obtain ⟨c1, hc1, hx1⟩ := wroteInvAnyTypes fs1 ts1 p x1 m1
    obtain ⟨c2, hc2, hx2⟩ := wroteInvAnyTypes fs2 ts2 p x2 m2
    have e1 : c1 = c := by rw [h1] at hc1; exact (FileState.readable.injEq ..).mp hc1.symm
    have e2 : c2 = c := by rw [h2] at hc2; exact (FileState.readable.injEq ..).mp hc2.symm
    rw [hx1, hx2, e1, e2]
  · intro fs1 fs2 ts1 ts2 p c x1 x2 h1 h2 m1 m2
    obtain ⟨c1, hc1, hx1⟩ := wroteInvUnused fs1 ts1 p x1 m1
    obtain ⟨c2, hc2, hx2⟩ := wroteInvUnused fs2 ts2 p x2 m2
    have e1 : c1 = c := by rw [h1] at hc1; exact (FileState.readable.injEq ..).mp hc1.symm
    have e2 : c2 = c := by rw [h2] at hc2; exact (FileState.readable.injEq ..).mp hc2.symm
    rw [hx1, hx2, e1, e2]

/-- Witness for C8: two different runs over different file systems and batch
lists write the same bytes for the shared target. -/
theorem c8_deterministic_outputs_witness :
    remove_unused_imports_text "x" = "x" :=
  c8_deterministic_outputs.1 c4FS (singleFS "b.ts" "x") ["b.ts"] ["m.ts", "b.ts"]
    "b.ts" "x" (remove_unused_imports_text "x") "x"
    (by decide) (by decide) (by decide) (by decide)

/-- C10: the import-insertion step of fix_any_types is the identity whenever
the input already contains `SuccessResponse` or `ErrorResponse`; on such
inputs the whole transformation is exactly the four as-any substitutions. -/
theorem c10_import_only_when_absent (t : List Char)
    (h : (hasSubL nmSuccessL t || hasSubL nmErrorL t) = true) :
    insertImport t = t ∧
      fixAnyTypesL t
        = scanSub tryCatchAll (scanSub tryPingAny (scanSub trySuccAny
            (scanSub tryErrAny t))) := by
  have h1 : insertImport t = t := by simp [insertImport, h]
  exact ⟨h1, by simp [fixAnyTypesL, h1]⟩

/-- Witness for C10 at a concrete input. -/
theorem c10_import_only_when_absent_witness :
    insertImport nmSuccessL = nmSuccessL ∧
      fixAnyTypesL nmSuccessL
        = scanSub tryCatchAll (scanSub tryPingAny (scanSub trySuccAny
            (scanSub tryErrAny nmSuccessL))) :=
  c10_import_only_when_absent nmSuccessL (by decide)

/-! ## No occurrence of the catch-all pattern survives (towards C9) -/

/-- The catch-all pattern without its leading closing parenthesis. -/
def tailPat : List Char := " as any;".toList

/-- Splitting a prefix of an append at the boundary. -/
theorem prefixAppendElim (p a b : List Char) (h : p <+: a ++ b) :
    p <+: a ∨ ∃ t, p = a ++ t ∧ t <+: b := by
  obtain ⟨v, hv⟩ := h
  rcases List.append_eq_append_iff.mp hv with ⟨a2, ha, _⟩ | ⟨c2, hc, hd⟩
  · exact Or.inl ⟨a2, ha.symm⟩
  · exact Or.inr ⟨c2, hc, ⟨v, hd.symm⟩⟩

/-- Decomposition of an occurrence inside an append: the occurrence lies in
the left part, lies in the right part, or straddles the boundary with a
nonempty piece on each side. -/
theorem infixAppendCases (p b : List Char) :
    ∀ a : List Char, p <:+: a ++ b →
      p <:+: a ∨ p <:+: b ∨
        ∃ s t, s ++ t = p ∧ s ≠ [] ∧ t ≠ [] ∧ s <:+ a ∧ t <+: b := by
  intro a
  induction a with
  | nil => intro h; exact Or.inr (Or.inl h)
  | cons x a ih =>
    intro h
    rcases List.infix_cons_iff.mp h with hpre | hinf
    · cases p with
      | nil => exact Or.inl List.nil_infix
      | cons y p2 =>
        obtain ⟨hyx, hp2⟩ := List.cons_prefix_cons.mp hpre
        rcases prefixAppendElim p2 a b hp2 with h1 | ⟨t, hpt, htb⟩
        · exact Or.inl (List.cons_prefix_cons.mpr ⟨hyx, h1⟩).isInfix
        · by_cases ht : t = []
          · subst ht
            have : y :: p2 <+: x :: a := by
              rw [hpt, List.append_nil]
              exact List.cons_prefix_cons.mpr ⟨hyx, List.prefix_refl a⟩
            exact Or.inl this.isInfix
          · refine Or.inr (Or.inr ⟨x :: a, t, ?_, by simp, ht, List.suffix_refl _, htb⟩)
            rw [List.cons_append, ← hpt, hyx]
    · rcases ih hinf with h1 | h2 | ⟨s, t, hst, hs, ht, hsuf, hpre2⟩
      · exact Or.inl (List.infix_cons h1)
      · exact Or.inr (Or.inl h2)
      · exact Or.inr (Or.inr ⟨s, t, hst, hs, ht, hsuf.trans (List.suffix_cons x a), hpre2⟩)

/-- If a word containing no closing parenthesis is a prefix of the output of
the catch-all scanner, then it is a prefix of the input: the scanner only ever
copies input characters or emits the replacement, which starts with `)`. -/
theorem prefixTransfer :
    ∀ (fuel : Nat) (l t : List Char), (∀ c ∈ t, c ≠ ')') →
      t <+: scanSubF tryCatchAll fuel l → t <+: l := by
  intro fuel
  induction fuel with
  | zero =>
    intro l t _ h
    cases l with
    | nil =>
      simp only [scanSubF] at h
      rw [List.prefix_nil] at h
      exact h ▸ List.nil_prefix
    | cons c rest =>
      simp only [scanSubF] at h
      rw [List.prefix_nil] at h
      exact h ▸ List.nil_prefix
  | succ fuel ih =>
    intro l t hc h
    cases l with
    | nil =>
      simp only [scanSubF] at h
      rw [List.prefix_nil] at h
      exact h ▸ List.nil_prefix
    | cons c rest =>
      by_cases hp : patAnyCatch.isPrefixOf (c :: rest) = true
      · have hm : tryCatchAll (c :: rest) = some (repAnyCatch, patAnyCatch.length) := by
          simp [tryCatchAll, hp]
        simp only [scanSubF, hm] at h
        cases t with
        | nil => exact List.nil_prefix
        | cons d t2 =>
          have hrep : repAnyCatch = ')' :: ((" as SuccessResponse | ErrorResponse;").toList) :=
            rfl
          rw [hrep] at h
          obtain ⟨hd, _⟩ := List.cons_prefix_cons.mp h
          exact absurd hd (hc d (List.mem_cons_self d t2))
      · have hm : tryCatchAll (c :: rest) = none := by simp [tryCatchAll, hp]
        simp only [scanSubF, hm] at h
        cases t with
        | nil => exact List.nil_prefix
        | cons d t2 =>
          obtain ⟨hd, ht2⟩ := List.cons_prefix_cons.mp h
          have := ih rest t2 (fun x hx => hc x (List.mem_cons_of_mem d hx)) ht2
          exact List.cons_prefix_cons.mpr ⟨hd, this⟩

/-- The catch-all scanner leaves no occurrence of its own pattern in its
output: every occurrence present in the input is consumed (the pattern cannot
overlap itself), and no new occurrence can appear inside the replacement or
across a boundary of the replacement. -/
theorem noCatchPat :
    ∀ (fuel : Nat) (l : List Char), ¬ patAnyCatch <:+: scanSubF tryCatchAll fuel l := by
  intro fuel
  induction fuel with
  | zero =>
    intro l h
    have hne : patAnyCatch ≠ [] := by decide
    cases l with
    | nil =>
      simp only [scanSubF] at h
      rw [List.infix_nil] at h
      exact hne h
    | cons c rest =>
      simp only [scanSubF] at h
      rw [List.infix_nil] at h
      exact hne h
  | succ fuel ih =>
    intro l h
    cases l with
    | nil =>
      simp only [scanSubF] at h
      rw [List.infix_nil] at h
      exact absurd h (by decide)
    | cons c rest =>
      by_cases hp : patAnyCatch.isPrefixOf (c :: rest) = true
      · have hm : tryCatchAll (c :: rest) = some (repAnyCatch, patAnyCatch.length) := by
          simp [tryCatchAll, hp]
        simp only [scanSubF, hm] at h
        rcases infixAppendCases patAnyCatch
            (scanSubF tryCatchAll fuel ((c :: rest).drop patAnyCatch.length)) repAnyCatch h
          with h1 | h2 | ⟨s, t, hst, hsne, htne, hsuf, _⟩
        · exact absurd h1 (by decide)
        · exact ih _ h2
        · have hge : 1 ≤ s.length := List.length_pos.mpr hsne
          have hlt : s.length < patAnyCatch.length := by
            rw [← hst, List.length_append]
            have := List.length_pos.mpr htne
            omega
          have hs_take : s = patAnyCatch.take s.length := by
            rw [← hst]
            exact (List.take_left s t).symm
          have noStraddle : ∀ k, k < 9 → 1 ≤ k → ¬ patAnyCatch.take k <:+ repAnyCatch := by
            decide
          have h9 : patAnyCatch.length = 9 := by decide
          exact noStraddle s.length (h9 ▸ hlt) hge (hs_take ▸ hsuf)
      · have hm : tryCatchAll (c :: rest) = none := by simp [tryCatchAll, hp]
        simp only [scanSubF, hm] at h
        rcases List.infix_cons_iff.mp h with hpre | hinf
        · have hpatcons : patAnyCatch = ')' :: tailPat := rfl
          rw [hpatcons] at hpre
          obtain ⟨hc2, htail⟩ := List.cons_prefix_cons.mp hpre
          have htail2 : tailPat <+: rest := prefixTransfer fuel rest tailPat (by decide) htail
          have hfull : patAnyCatch <+: c :: rest := by
            rw [hpatcons]
            exact List.cons_prefix_cons.mpr ⟨hc2, htail2⟩
          exact hp (List.isPrefixOf_iff_prefix.mpr hfull)
        · exact ih _ hinf

/-- Bridge from the executable substring test to an occurrence. -/
theorem hasSubTrueInfix (pat : List Char) :
    ∀ l : List Char, hasSubL pat l = true → pat <:+: l := by
  intro l
  induction l with
  | nil =>
    intro h
    simp only [hasSubL, List.isEmpty_iff] at h
    exact h ▸ List.nil_infix
  | cons c rest ih =>
    intro h
    simp only [hasSubL, Bool.or_eq_true] at h
    rcases h with h1 | h2
    · exact (List.isPrefixOf_iff_prefix.mp h1).isInfix
    · exact List.infix_cons (ih h2)

/-- C9: for every input text, the output of the fix_any_types transformation
contains no occurrence of the substring `) as any;`.  The final catch-all
substitution consumes every occurrence (the pattern cannot overlap itself),
and no new occurrence can appear inside its replacement or across a boundary
of the replacement. -/
theorem c9_no_as_any_left (s : String) :
    hasSubL patAnyCatch (fix_any_types_text s).toList = false := by
  cases hb : hasSubL patAnyCatch (fix_any_types_text s).toList with
  | false => rfl
  | true =>
    exfalso
    have hinf := hasSubTrueInfix patAnyCatch _ hb
    have hinf2 : patAnyCatch <:+: scanSubF tryCatchAll
        (scanSub tryPingAny (scanSub trySuccAny (scanSub tryErrAny
          (insertImport s.toList)))).length
        (scanSub tryPingAny (scanSub trySuccAny (scanSub tryErrAny
          (insertImport s.toList)))) := hinf
    exact noCatchPat _ _ hinf2
